import Mathlib

/-! Package `exception`: stack capture and recursion elimination.

A shallow embedding of `exception.go`, `null.go` and `throwable.go`.

* A frame identifier (`uintptr`) is a natural number; a `[]uintptr` is a `List Frame`
  (innermost frame first).
* Go `int` values are modelled by `Int`.  The only arithmetic on them is the comparison
  of indices and the product `depthLimit * (1024/8)`, computed after `make` allocated
  `depthLimit` slots; on a platform whose allocation limit is below `2^59` bytes (that of
  Go on 64-bit machines is `2^48`) the product stays within 64 bits.
* `make([]uintptr, n)` panics for a negative `n` and for an `n` whose `8 * n` bytes exceed
  the allocation limit `maxAlloc` of the platform.
* A Go panic is the outcome `Res.panic`; a loop or recursion that did not finish within
  the step budget handed to the model is the outcome `Res.outOfFuel`.
-/

namespace ExceptionPkg

/-- A program counter as returned by `runtime.Callers` (`uintptr`). -/
abbrev Frame := Nat

/-- Outcome of running a piece of Go code. -/
inductive Res (α : Type) where
  | ok (a : α)
  | panic (msg : String)
  | outOfFuel
  deriving Repr, DecidableEq

/-- Sequencing of outcomes: the first panic (or exhausted budget) aborts the rest. -/
def Res.bind {α β : Type} (r : Res α) (f : α → Res β) : Res β :=
  match r with
  | .ok a => f a
  | .panic msg => .panic msg
  | .outOfFuel => .outOfFuel

instance : Monad Res where
  pure := Res.ok
  bind := Res.bind

/-- The struct `Exception` of `exception.go`: `cause`, `message`, `stackTrace`.
The interface value `cause` is `none` for Go `nil`. -/
inductive Exception where
  | mk (cause : Option Exception) (message : String) (stackTrace : List Frame)

/-- Method `(e *Exception) Cause()`. -/
def Exception.Cause : Exception → Option Exception
  | .mk cause _ _ => cause

/-- Method `(e *Exception) Message()`. -/
def Exception.Message : Exception → String
  | .mk _ message _ => message

/-- Method `(e *Exception) StackTrace()`. -/
def Exception.StackTrace : Exception → List Frame
  | .mk _ _ stackTrace => stackTrace

/-- Method `(e *Exception) SetStackTrace(stackTrace)`: the receiver after the assignment. -/
def Exception.SetStackTrace : Exception → List Frame → Exception
  | .mk cause message _, stackTrace => .mk cause message stackTrace

/-- Method `(e *Exception) PrintStackTrace(w)`: the writer `w` (the text written to it so
far) after `fmt.Fprint(w, runtime.CallersFrames(e.StackTrace()))`.  The rendering of the
frames by the Go runtime and `fmt` is the parameter `render`. -/
def Exception.PrintStackTrace (render : List Frame → String) (e : Exception) (w : String) :
    String :=
  w ++ render e.StackTrace

/-- Method `(e *Exception) Error()`. -/
def Exception.Error (e : Exception) : String :=
  "Exception: " ++ e.Message

/-! ## Slice primitives with Go's bounds checks -/

/-- The index expression `st[k]`: panics outside `0 ≤ k < len(st)`. -/
def index (st : List Frame) (k : Nat) : Res Frame :=
  match st.get? k with
  | some x => .ok x
  | none => .panic "index out of range"

/-- The slice expression `st[:hi]`: panics when `hi > len(st)`. -/
def sliceTo (st : List Frame) (hi : Nat) : Res (List Frame) :=
  if hi ≤ st.length then .ok (st.take hi) else .panic "slice bounds out of range"

/-- The slice expression `st[lo:]`: panics when `lo > len(st)`. -/
def sliceFrom (st : List Frame) (lo : Nat) : Res (List Frame) :=
  if lo ≤ st.length then .ok (st.drop lo) else .panic "slice bounds out of range"

/-! ## `EliminatedStackTrace` -/

/-- The inner loop `for j < stDepth && st[i] == st[j] { j++ }` of `EliminatedStackTrace`,
returning the final `j`.  The first argument bounds the number of iterations. -/
def scanRun (st : List Frame) (i : Nat) : Nat → Nat → Res Nat
  | 0, j =>
    if j < st.length then
      (index st i).bind fun a => (index st j).bind fun b =>
        if a = b then .outOfFuel else .ok j
    else .ok j
  | fuel + 1, j =>
    if j < st.length then
      (index st i).bind fun a => (index st j).bind fun b =>
        if a = b then scanRun st i fuel (j + 1) else .ok j
    else .ok j

/-- The body of the outer loop of `EliminatedStackTrace` at index `i`: the value of
`eliminated` after the iteration. -/
def eliminateStep (st : List Frame) (i : Nat) (eliminated : List Frame) : Res (List Frame) :=
  (scanRun st i st.length (i + 1)).bind fun j =>
    if j = st.length then
      (sliceTo st (i + 1)).bind fun p => .ok (eliminated ++ p)
    else if j < st.length then
      if j > i + 1 then
        (sliceTo st (i + 1)).bind fun p => (sliceFrom st j).bind fun s =>
          .ok ((eliminated ++ p) ++ s)
      else .ok eliminated
    else .panic "BUG: EliminatedStackTrace(): i j exceed bounds"

/-- The outer loop `for i := 0; i < stDepth-1; i++ { ... }` of `EliminatedStackTrace`.
The first argument bounds the number of iterations. -/
def eliminateLoop (st : List Frame) : Nat → Nat → List Frame → Res (List Frame)
  | 0, i, eliminated =>
    if (i : Int) < (st.length : Int) - 1 then .outOfFuel else .ok eliminated
  | fuel + 1, i, eliminated =>
    if (i : Int) < (st.length : Int) - 1 then
      (eliminateStep st i eliminated).bind fun eliminated =>
        eliminateLoop st fuel (i + 1) eliminated
    else .ok eliminated

/-- Method `(e *Exception) EliminatedStackTrace()`.  Both loops count an index up to
`stDepth`, so `stDepth` iterations are given to each. -/
def Exception.EliminatedStackTrace (e : Exception) : Res (List Frame) :=
  let st := e.StackTrace
  let stDepth := st.length
  eliminateLoop st stDepth 0 []

/-- The reference function of the glossary, following the words of the specification
("collapsing contiguous runs of an identical frame into one occurrence"). -/
def collapseAdjacentSpec : List Frame → List Frame
  | [] => []
  | [a] => [a]
  | a :: b :: rest =>
    if a = b then collapseAdjacentSpec (b :: rest) else a :: collapseAdjacentSpec (b :: rest)

/-! ## Stack capture -/

/-- Size in bytes of a `uintptr` on a 64-bit machine (comment in `implorer`). -/
def uintptrSize : Nat := 8

/-- What a run depends on besides the program: the program counters of the frames that the
capture machinery pushes on the call stack, one per function of the package (and one for
`runtime.Callers`), and the allocation limit `maxAlloc` of the Go runtime in bytes (`2^48`
on 64-bit Linux; `none` stands for a runtime without limit). -/
structure Machinery where
  runtimeCallers : Frame
  implorer : Frame
  callers : Frame
  New : Frame
  NewWithStackTraceDepthLimit : Frame
  FromError : Frame
  NewNullReference : Frame
  maxAlloc : Option Nat

/-- The size check of `runtime.makeslice` for `make([]uintptr, len)`: the `len * 8` bytes
asked for exceed the allocation limit (this covers the overflow of the product, the limit
being below `2^64`). -/
def exceedsMaxAlloc (maxAlloc : Option Nat) (len : Int) : Bool :=
  match maxAlloc with
  | none => false
  | some limit => decide ((limit : Int) < len * (uintptrSize : Int))

/-- One invocation of the capture primitive `runtime.Callers(skip, pc)`: the `skip`
argument, `len(pc)` and the count the primitive returned. -/
structure Call where
  skip : Int
  capacity : Nat
  reported : Int
  deriving Repr, DecidableEq

/-- A capture primitive.  Given the call stack at the moment it runs (frame 0 is the
frame of the primitive itself), the `skip` argument and the length of the buffer, it
yields the count it reports and the frames it writes from index 0 of the buffer. -/
abbrev Primitive := List Frame → Int → Nat → Int × List Frame

/-- The buffer `pc` after the primitive wrote `written` into it from index 0: the length
of a slice passed by value cannot change. -/
def fill (pc written : List Frame) : List Frame :=
  written.take pc.length ++ pc.drop written.length

/-- The primitive `runtime.Callers(skip, pc)` of the Go runtime, as described in section 6
of the specification: it drops `skip` frames of the current call stack (0 identifies the
frame of `Callers` itself), writes the first `min(len(pc), depth - skip)` of the remaining
frames and returns how many it wrote. -/
def runtimeCallers : Primitive := fun stack skip capacity =>
  let frames := (stack.drop skip.toNat).take capacity
  ((frames.length : Int), frames)

/-- The function `isFull(length, limit)`. -/
def isFull (length limit : Int) : Res Bool :=
  if length < limit then .ok false
  else if length = limit then .ok true
  else .panic "isFull(length, limit): length should not exceed limit"

/-- The function `implorer(depthLimit, recursion)`, run with the call stack `cs` of its
caller (frame 0 of `cs` is the calling function).  It returns the invocations of the
primitive it made, in order, and its outcome `(depth, pc)`.  The first argument bounds
the depth of the recursion. -/
def implorer (m : Machinery) (prim : Primitive) :
    Nat → List Frame → Int → Int → List Call × Res (Int × List Frame)
  | 0, _, _, _ => ([], .outOfFuel)
  | fuel + 1, cs, depthLimit, recursion =>
    -- var pc = make([]uintptr, depthLimit)
    if depthLimit < 0 ∨ exceedsMaxAlloc m.maxAlloc depthLimit = true then
      ([], .panic "makeslice: len out of range")
    else
    let pc : List Frame := List.replicate depthLimit.toNat 0
    -- depth := runtime.Callers(5+recursion, pc)
    let stack := m.implorer :: cs
    let out := prim (m.runtimeCallers :: stack) (5 + recursion) pc.length
    let depth := out.1
    let pc := fill pc out.2
    let call : Call := ⟨5 + recursion, pc.length, depth⟩
    if recursion < 0 then
      -- return depth, pc[0:depth]
      if 0 ≤ depth ∧ depth ≤ (pc.length : Int) then ([call], .ok (depth, pc.take depth.toNat))
      else ([call], .panic "slice bounds out of range")
    else
      match isFull depth depthLimit with
      | .ok true =>
        -- return implorer(depthLimit*(depth_limit_times), recursion+1)
        let r := implorer m prim fuel stack (depthLimit * (1024 / 8)) (recursion + 1)
        (call :: r.1, r.2)
      | .ok false =>
        -- var result = make([]uintptr, depth); copy(result, pc)
        if depth < 0 ∨ exceedsMaxAlloc m.maxAlloc depth = true then
          ([call], .panic "makeslice: len out of range")
        else ([call], .ok (depth, pc.take depth.toNat))
      | .panic msg => ([call], .panic msg)
      | .outOfFuel => ([call], .outOfFuel)

/-- The function `callers()`, run with the call stack `cs` of its caller. -/
def callers (m : Machinery) (prim : Primitive) (fuel : Nat) (cs : List Frame) :
    List Call × Res (List Frame) :=
  let r := implorer m prim fuel (m.callers :: cs) 16 0
  (r.1, r.2.bind fun out => .ok out.2)

/-- The function `New(message, cause)`, called by the function whose frame is frame 0 of
`cs`.  It returns the invocations of the primitive and the constructed `Exception`. -/
def New (m : Machinery) (prim : Primitive) (fuel : Nat) (cs : List Frame)
    (message : String) (cause : Option Exception) : List Call × Res Exception :=
  let r := callers m prim fuel (m.New :: cs)
  (r.1, r.2.bind fun pc => .ok (Exception.mk cause message pc))

/-- The function `NewWithStackTraceDepthLimit(message, cause, limit)`, called by the
function whose frame is frame 0 of `cs`. -/
def NewWithStackTraceDepthLimit (m : Machinery) (prim : Primitive) (fuel : Nat)
    (cs : List Frame) (message : String) (cause : Option Exception) (limit : Int) :
    List Call × Res Exception :=
  let r := implorer m prim fuel (m.NewWithStackTraceDepthLimit :: cs) limit (-1)
  (r.1, r.2.bind fun out => .ok (Exception.mk cause message out.2))

/-- The function `FromError(err)`, called by the function whose frame is frame 0 of `cs`.
The interface value `err` is used only through `err.Error()`, given as `errText`. -/
def FromError (m : Machinery) (prim : Primitive) (fuel : Nat) (cs : List Frame)
    (errText : String) : List Call × Res Exception :=
  New m prim fuel (m.FromError :: cs) errText none

/-- The struct `NullReference` of `null.go`: it embeds `*Exception` and has no other field. -/
structure NullReference where
  Exception : Exception

/-- The function `NewNullReference(message, cause)`, called by the function whose frame is
frame 0 of `cs`. -/
def NewNullReference (m : Machinery) (prim : Primitive) (fuel : Nat) (cs : List Frame)
    (message : String) (cause : Option Exception) : List Call × Res NullReference :=
  let r := New m prim fuel (m.NewNullReference :: cs) message cause
  (r.1, r.2.bind fun e => .ok (NullReference.mk e))

/-- Method `Cause()` of `NullReference`, promoted from the embedded `*Exception`. -/
def NullReference.Cause (n : NullReference) : Option ExceptionPkg.Exception :=
  n.Exception.Cause

/-- Method `Message()` of `NullReference`, promoted from the embedded `*Exception`. -/
def NullReference.Message (n : NullReference) : String :=
  n.Exception.Message

/-- Method `StackTrace()` of `NullReference`, promoted from the embedded `*Exception`. -/
def NullReference.StackTrace (n : NullReference) : List Frame :=
  n.Exception.StackTrace

/-- Method `SetStackTrace(stackTrace)` of `NullReference`, promoted from the embedded
`*Exception`: the receiver after the assignment. -/
def NullReference.SetStackTrace (n : NullReference) (stackTrace : List Frame) :
    NullReference :=
  NullReference.mk (n.Exception.SetStackTrace stackTrace)

/-- Method `EliminatedStackTrace()` of `NullReference`, promoted from the embedded
`*Exception`. -/
def NullReference.EliminatedStackTrace (n : NullReference) : Res (List Frame) :=
  n.Exception.EliminatedStackTrace

/-- Method `PrintStackTrace(w)` of `NullReference`, promoted from the embedded
`*Exception`. -/
def NullReference.PrintStackTrace (render : List Frame → String) (n : NullReference)
    (w : String) : String :=
  n.Exception.PrintStackTrace render w

/-- Method `Error()` of `NullReference`, promoted from the embedded `*Exception`. -/
def NullReference.Error (n : NullReference) : String :=
  n.Exception.Error

/-- A primitive that breaks its contract: it reports one frame more than the buffer holds. -/
def overrunningPrimitive : Primitive := fun _ _ capacity => ((capacity : Int) + 1, [])

/-! ## Lemmas on the capture loop -/

theorem fill_length (pc written : List Frame) : (fill pc written).length = pc.length := by
  simp [fill, List.length_take, List.length_drop]
  omega

theorem fill_take (pc written : List Frame) (h : written.length ≤ pc.length) :
    (fill pc written).take written.length = written := by
  simp [fill, List.take_append_eq_append_take, List.take_take, h]

theorem isFull_false_iff (length limit : Int) :
    isFull length limit = .ok false ↔ length < limit := by
  unfold isFull
  split
  · simp [*]
  · split <;> simp [*]

theorem isFull_true_iff (length limit : Int) :
    isFull length limit = .ok true ↔ length = limit := by
  unfold isFull
  split
  · simp; omega
  · split <;> simp [*]

theorem isFull_panic_iff (length limit : Int) :
    (∃ msg, isFull length limit = .panic msg) ↔ limit < length := by
  unfold isFull
  split
  · simp; omega
  · split
    · simp; omega
    · simp; omega

theorem isFull_ne_outOfFuel (length limit : Int) : isFull length limit ≠ .outOfFuel := by
  unfold isFull
  split
  · simp
  · split <;> simp

/-! ## Lemmas on the invocations of the primitive -/

/-- A request below an allocatable request is allocatable. -/
theorem exceedsMaxAlloc_mono (maxAlloc : Option Nat) (x y : Int)
    (h : exceedsMaxAlloc maxAlloc x = false) (hxy : y ≤ x) :
    exceedsMaxAlloc maxAlloc y = false := by
  cases maxAlloc with
  | none => rfl
  | some limit =>
    simp only [exceedsMaxAlloc, uintptrSize, decide_eq_false_iff_not, not_lt] at h ⊢
    omega

/-- Without allocation limit every request is allocatable. -/
theorem exceedsMaxAlloc_none (len : Int) : exceedsMaxAlloc none len = false := rfl

theorem make_succeeds (m : Machinery) (len : Int) (hl : 0 ≤ len)
    (halloc : exceedsMaxAlloc m.maxAlloc len = false) :
    ¬ (len < 0 ∨ exceedsMaxAlloc m.maxAlloc len = true) := by
  rw [halloc]
  simp
  omega

theorem drop_skip_retry (m : Machinery) (cs : List Frame) (r : Nat) :
    (m.runtimeCallers :: m.implorer :: m.implorer :: cs).drop (5 + (r + 1))
      = (m.runtimeCallers :: m.implorer :: cs).drop (5 + r) := by
  rw [show 5 + (r + 1) = (r + 3) + 1 + 1 + 1 by omega, show 5 + r = (r + 3) + 1 + 1 by omega]
  simp only [List.drop_succ_cons]

/-- One attempt of `implorer` with the runtime primitive whose buffer is larger than the
frames available: the attempt is the last one. -/
theorem implorer_fit (m : Machinery) (rest : List Frame) (fuel c r : Nat) (cs : List Frame)
    (hrest : (m.runtimeCallers :: m.implorer :: cs).drop (5 + r) = rest)
    (hfit : rest.length < c) (halloc : exceedsMaxAlloc m.maxAlloc (c : Int) = false) :
    implorer m runtimeCallers (fuel + 1) cs (c : Int) (r : Int)
      = ([⟨5 + (r : Int), c, (rest.length : Int)⟩], .ok ((rest.length : Int), rest)) := by
  have hskip : ((5 : Int) + (r : Int)).toNat = 5 + r := by omega
  have hneg := make_succeeds m (c : Int) (by omega) halloc
  have hrec : ¬ ((r : Int) < 0) := by omega
  have htake : rest.take c = rest := List.take_of_length_le (by omega)
  have hfull : isFull (rest.length : Int) (c : Int) = .ok false :=
    (isFull_false_iff _ _).2 (by exact_mod_cast hfit)
  have hdepth := make_succeeds m (rest.length : Int) (by omega)
    (exceedsMaxAlloc_mono _ _ _ halloc (by omega))
  have hcopy := fill_take (List.replicate c 0) rest (by simp; omega)
  simp only [implorer, hneg, hrec, if_false, runtimeCallers, hskip, Int.toNat_ofNat,
    List.length_replicate, hrest, htake, hfull, hdepth, hcopy, fill_length]

/-- One attempt of `implorer` with the runtime primitive whose buffer is filled exactly:
the attempt is followed by the run of `implorer(depthLimit*128, recursion+1)`. -/
theorem implorer_retry (m : Machinery) (rest : List Frame) (fuel c r : Nat) (cs : List Frame)
    (hrest : (m.runtimeCallers :: m.implorer :: cs).drop (5 + r) = rest)
    (hfull : c ≤ rest.length) (halloc : exceedsMaxAlloc m.maxAlloc (c : Int) = false) :
    implorer m runtimeCallers (fuel + 1) cs (c : Int) (r : Int)
      = (⟨5 + (r : Int), c, (c : Int)⟩ ::
          (implorer m runtimeCallers fuel (m.implorer :: cs) ((c * 128 : Nat) : Int)
            ((r + 1 : Nat) : Int)).1,
        (implorer m runtimeCallers fuel (m.implorer :: cs) ((c * 128 : Nat) : Int)
            ((r + 1 : Nat) : Int)).2) := by
  have hskip : ((5 : Int) + (r : Int)).toNat = 5 + r := by omega
  have hneg := make_succeeds m (c : Int) (by omega) halloc
  have hrec : ¬ ((r : Int) < 0) := by omega
  have htake : (rest.take c).length = c := by
    rw [List.length_take]; omega
  have hisfull : isFull ((rest.take c).length : Int) (c : Int) = .ok true := by
    rw [htake]; exact (isFull_true_iff _ _).2 rfl
  have hcast : (c : Int) * (1024 / 8) = ((c * 128 : Nat) : Int) := by
    push_cast; norm_num
  have hcast2 : (r : Int) + 1 = ((r + 1 : Nat) : Int) := by push_cast; ring
  have hisfull2 : isFull (c : Int) (c : Int) = .ok true := (isFull_true_iff _ _).2 rfl
  simp only [implorer, hneg, hrec, if_false, runtimeCallers, hskip, Int.toNat_ofNat,
    List.length_replicate, hrest, hisfull, hcast, hcast2, fill_length, htake, hisfull2]

/-- In unlimited mode with the runtime primitive, a buffer of `c ≥ 1` slots, a budget
that covers the frames still missing and buffers within the allocation limit, `implorer`
returns all frames beyond the skip. -/
theorem implorer_unlimited (m : Machinery) (rest : List Frame) :
    ∀ (fuel c r : Nat) (cs : List Frame), 1 ≤ c → 1 ≤ fuel →
      (m.runtimeCallers :: m.implorer :: cs).drop (5 + r) = rest →
      rest.length + 2 ≤ fuel + c →
      exceedsMaxAlloc m.maxAlloc ((max c (128 * rest.length) : Nat) : Int) = false →
      (implorer m runtimeCallers fuel cs (c : Int) (r : Int)).2
        = .ok ((rest.length : Int), rest) := by
  intro fuel
  induction fuel with
  | zero => intro c r cs _ h; omega
  | succ n ih =>
    intro c r cs hc _ hrest hlen halloc
    have hallocc : exceedsMaxAlloc m.maxAlloc (c : Int) = false :=
      exceedsMaxAlloc_mono _ _ _ halloc (by exact_mod_cast le_max_left _ _)
    by_cases hfit : rest.length < c
    · rw [implorer_fit m rest n c r cs hrest hfit hallocc]
    · rw [implorer_retry m rest n c r cs hrest (by omega) hallocc]
      exact ih (c * 128) (r + 1) (m.implorer :: cs) (by omega) (by omega)
        (by rw [drop_skip_retry, hrest]) (by omega)
        (exceedsMaxAlloc_mono _ _ _ halloc (by
          have : max (c * 128) (128 * rest.length) ≤ max c (128 * rest.length) := by omega
          exact_mod_cast this))

/-- The invocations of the primitive made by `implorer` in unlimited mode with the runtime
primitive: `k` exactly filled buffers of `c * 128 ^ i` slots, then one buffer of
`c * 128 ^ k` slots that is not filled, where `k` is least with `len(rest) < c * 128 ^ k`. -/
theorem implorer_unlimited_calls (m : Machinery) (rest : List Frame) :
    ∀ (fuel c r : Nat) (cs : List Frame), 1 ≤ c → 1 ≤ fuel →
      (m.runtimeCallers :: m.implorer :: cs).drop (5 + r) = rest →
      rest.length + 2 ≤ fuel + c →
      exceedsMaxAlloc m.maxAlloc ((max c (128 * rest.length) : Nat) : Int) = false →
      ∃ k, rest.length < c * 128 ^ k ∧ (∀ j, j < k → c * 128 ^ j ≤ rest.length)
        ∧ (implorer m runtimeCallers fuel cs (c : Int) (r : Int)).1
          = (List.range k).map
              (fun i => (⟨((5 + r + i : Nat) : Int), c * 128 ^ i, ((c * 128 ^ i : Nat) : Int)⟩ : Call))
            ++ [⟨((5 + r + k : Nat) : Int), c * 128 ^ k, (rest.length : Int)⟩] := by
  intro fuel
  induction fuel with
  | zero => intro c r cs _ h; omega
  | succ n ih =>
    intro c r cs hc _ hrest hlen halloc
    have hallocc : exceedsMaxAlloc m.maxAlloc (c : Int) = false :=
      exceedsMaxAlloc_mono _ _ _ halloc (by exact_mod_cast le_max_left _ _)
    by_cases hfit : rest.length < c
    · refine ⟨0, by simpa using hfit, fun j hj => by omega, ?_⟩
      rw [implorer_fit m rest n c r cs hrest hfit hallocc]
      simp
    · obtain ⟨k, hk1, hk2, hk3⟩ := ih (c * 128) (r + 1) (m.implorer :: cs) (by omega)
        (by omega) (by rw [drop_skip_retry, hrest]) (by omega)
        (exceedsMaxAlloc_mono _ _ _ halloc (by
          have : max (c * 128) (128 * rest.length) ≤ max c (128 * rest.length) := by omega
          exact_mod_cast this))
      refine ⟨k + 1, ?_, ?_, ?_⟩
      · rw [show c * 128 ^ (k + 1) = c * 128 * 128 ^ k by ring]
        exact hk1
      · intro j hj
        cases j with
        | zero => simp; omega
        | succ j =>
          rw [show c * 128 ^ (j + 1) = c * 128 * 128 ^ j by ring]
          exact hk2 j (by omega)
      · rw [implorer_retry m rest n c r cs hrest (by omega) hallocc, hk3,
          List.range_succ_eq_map, List.map_cons, List.map_map, List.cons_append]
        have hhead : (⟨5 + (r : Int), c, (c : Int)⟩ : Call)
            = ⟨((5 + r + 0 : Nat) : Int), c * 128 ^ 0, ((c * 128 ^ 0 : Nat) : Int)⟩ := by
          simp
        have hlast : (⟨((5 + (r + 1) + k : Nat) : Int), c * 128 * 128 ^ k, (rest.length : Int)⟩ : Call)
            = ⟨((5 + r + (k + 1) : Nat) : Int), c * 128 ^ (k + 1), (rest.length : Int)⟩ := by
          rw [show c * 128 ^ (k + 1) = c * 128 * 128 ^ k by ring,
            show 5 + r + (k + 1) = 5 + (r + 1) + k by omega]
        have hmid : (List.range k).map (fun i => (⟨((5 + (r + 1) + i : Nat) : Int),
              c * 128 * 128 ^ i, ((c * 128 * 128 ^ i : Nat) : Int)⟩ : Call))
            = (List.range k).map ((fun i => (⟨((5 + r + i : Nat) : Int), c * 128 ^ i,
              ((c * 128 ^ i : Nat) : Int)⟩ : Call)) ∘ Nat.succ) := by
          apply List.map_congr_left
          intro i _
          simp only [Function.comp, Nat.succ_eq_add_one]
          rw [show c * 128 ^ (i + 1) = c * 128 * 128 ^ i by ring,
            show 5 + r + (i + 1) = 5 + (r + 1) + i by omega]
        rw [hhead, hlast, hmid]

/-- With the runtime primitive and buffers within the allocation limit, `New` stores the
call stack without its first five frames. -/
theorem New_stored (m : Machinery) (cs : List Frame) (message : String)
    (cause : Option Exception) (fuel : Nat) (hfuel : cs.length + 1 ≤ fuel)
    (halloc : exceedsMaxAlloc m.maxAlloc ((max 16 (128 *
      ((m.runtimeCallers :: m.implorer :: m.callers :: m.New :: cs).drop 5).length) : Nat) : Int)
        = false) :
    (New m runtimeCallers fuel cs message cause).2
      = .ok (Exception.mk cause message
          ((m.runtimeCallers :: m.implorer :: m.callers :: m.New :: cs).drop 5)) := by
  have h := implorer_unlimited m
    ((m.runtimeCallers :: m.implorer :: m.callers :: m.New :: cs).drop 5)
    fuel 16 0 (m.callers :: m.New :: cs) (by omega) (by omega) rfl
    (by simp only [List.length_drop, List.length_cons]; omega) halloc
  simp only [New, callers]
  rw [show ((16 : Nat) : Int) = 16 from rfl, show ((0 : Nat) : Int) = 0 from rfl] at h
  rw [h]
  rfl

/-- In limited mode (`recursion < 0`) with an allocatable `depthLimit`, `implorer` invokes
the primitive once, whatever the primitive does. -/
theorem implorer_limited_calls (m : Machinery) (prim : Primitive) (fuel : Nat)
    (cs : List Frame) (depthLimit recursion : Int) (hl : 0 ≤ depthLimit) (hr : recursion < 0)
    (halloc : exceedsMaxAlloc m.maxAlloc depthLimit = false) :
    (implorer m prim (fuel + 1) cs depthLimit recursion).1
      = [⟨5 + recursion, depthLimit.toNat,
          (prim (m.runtimeCallers :: m.implorer :: cs) (5 + recursion) depthLimit.toNat).1⟩] := by
  have hneg := make_succeeds m depthLimit hl halloc
  simp only [implorer, hneg, if_false, hr, if_true, List.length_replicate, fill_length]
  split <;> rfl

/-- In limited mode with the runtime primitive and an allocatable `depthLimit`, `implorer`
returns what the primitive reported and wrote. -/
theorem implorer_limited_result (m : Machinery) (fuel : Nat)
    (cs : List Frame) (depthLimit recursion : Int) (hl : 0 ≤ depthLimit) (hr : recursion < 0)
    (halloc : exceedsMaxAlloc m.maxAlloc depthLimit = false) :
    (implorer m runtimeCallers (fuel + 1) cs depthLimit recursion).2
      = .ok (runtimeCallers (m.runtimeCallers :: m.implorer :: cs) (5 + recursion)
          depthLimit.toNat) := by
  have hneg := make_succeeds m depthLimit hl halloc
  have hle : ((m.runtimeCallers :: m.implorer :: cs).drop (5 + recursion).toNat |>.take
      depthLimit.toNat).length ≤ (List.replicate depthLimit.toNat (0 : Frame)).length := by
    simp only [List.length_take, List.length_replicate]; omega
  have hcopy := fill_take _ _ hle
  have hbound : (0 : Int) ≤ (((m.runtimeCallers :: m.implorer :: cs).drop (5 + recursion).toNat
        |>.take depthLimit.toNat).length : Int)
      ∧ ((((m.runtimeCallers :: m.implorer :: cs).drop (5 + recursion).toNat
        |>.take depthLimit.toNat).length : Nat) : Int) ≤ (depthLimit.toNat : Int) := by
    refine ⟨by omega, ?_⟩
    have : ((m.runtimeCallers :: m.implorer :: cs).drop (5 + recursion).toNat
        |>.take depthLimit.toNat).length ≤ depthLimit.toNat := by
      simp only [List.length_take]; omega
    exact_mod_cast this
  simp only [implorer, hneg, if_false, hr, if_true, List.length_replicate, fill_length,
    runtimeCallers, hbound, and_self, Int.toNat_ofNat, hcopy]

/-- When `make([]uintptr, depthLimit)` fails, `implorer` panics before any invocation of
the primitive. -/
theorem implorer_make_fails (m : Machinery) (prim : Primitive) (fuel : Nat) (cs : List Frame)
    (depthLimit recursion : Int)
    (hfail : depthLimit < 0 ∨ exceedsMaxAlloc m.maxAlloc depthLimit = true) :
    implorer m prim (fuel + 1) cs depthLimit recursion
      = ([], .panic "makeslice: len out of range") := by
  simp only [implorer, hfail, if_true]

/-- In unlimited mode, a run of `implorer` during which some invocation of the primitive
reported more frames than its buffer holds ends in a panic, for any primitive. -/
theorem implorer_overrun_panics (m : Machinery) (prim : Primitive) :
    ∀ (fuel : Nat) (cs : List Frame) (depthLimit recursion : Int), 0 ≤ recursion →
      (∃ c ∈ (implorer m prim fuel cs depthLimit recursion).1, (c.capacity : Int) < c.reported) →
      ∃ msg, (implorer m prim fuel cs depthLimit recursion).2 = .panic msg := by
  intro fuel
  induction fuel with
  | zero =>
    intro cs depthLimit recursion _ h
    simp [implorer] at h
  | succ n ih =>
    intro cs depthLimit recursion hr h
    have hrec : ¬ (recursion < 0) := by omega
    by_cases hfail : depthLimit < 0 ∨ exceedsMaxAlloc m.maxAlloc depthLimit = true
    · rw [implorer_make_fails m prim n cs depthLimit recursion hfail] at h
      simp at h
    · have hnn : 0 ≤ depthLimit := by
        by_contra hlt
        exact hfail (Or.inl (by omega))
      have hcap : ((depthLimit.toNat : Nat) : Int) = depthLimit := Int.toNat_of_nonneg hnn
      simp only [implorer, hfail, if_false, hrec, List.length_replicate, fill_length] at h ⊢
      generalize hd : (prim (m.runtimeCallers :: m.implorer :: cs) (5 + recursion)
        depthLimit.toNat).1 = depth at h ⊢
      cases hfull : isFull depth depthLimit with
      | ok b =>
        cases b with
        | true =>
          have hdepth := (isFull_true_iff depth depthLimit).1 hfull
          simp only [hfull] at h ⊢
          obtain ⟨c, hc, hlt⟩ := h
          rcases List.mem_cons.1 hc with rfl | hc
          · simp only [hcap] at hlt; omega
          · exact ih _ _ _ (by omega) ⟨c, hc, hlt⟩
        | false =>
          have hdepth := (isFull_false_iff depth depthLimit).1 hfull
          simp only [hfull] at h
          obtain ⟨c, hc, hlt⟩ := h
          split at hc <;>
          · simp only [List.mem_singleton] at hc
            subst hc
            simp only [hcap] at hlt
            omega
      | panic msg =>
        simp only [hfull]
        exact ⟨msg, rfl⟩
      | outOfFuel => exact absurd hfull (isFull_ne_outOfFuel _ _)

/-- Any run of `implorer` with a budget of at least one call and an allocatable
`depthLimit` starts by invoking the primitive with skip `5 + recursion` and a buffer of
`depthLimit` slots. -/
theorem implorer_first_call (m : Machinery) (prim : Primitive) (fuel : Nat) (cs : List Frame)
    (depthLimit recursion : Int) (hl : 0 ≤ depthLimit)
    (halloc : exceedsMaxAlloc m.maxAlloc depthLimit = false) :
    ∃ rest, (implorer m prim (fuel + 1) cs depthLimit recursion).1
      = ⟨5 + recursion, depthLimit.toNat,
          (prim (m.runtimeCallers :: m.implorer :: cs) (5 + recursion) depthLimit.toNat).1⟩
        :: rest := by
  have hneg := make_succeeds m depthLimit hl halloc
  simp only [implorer, hneg, if_false, List.length_replicate, fill_length]
  split
  · split <;> exact ⟨[], rfl⟩
  · split
    · exact ⟨_, rfl⟩
    · split <;> exact ⟨[], rfl⟩
    · exact ⟨[], rfl⟩
    · exact ⟨[], rfl⟩

/-- In unlimited mode, when the primitive fills the buffer exactly, the run of `implorer`
is this attempt followed by the run of `implorer(depthLimit * 128, recursion + 1)`. -/
theorem implorer_exact_fill (m : Machinery) (prim : Primitive) (fuel : Nat) (cs : List Frame)
    (depthLimit recursion : Int) (hl : 0 ≤ depthLimit) (hr : 0 ≤ recursion)
    (halloc : exceedsMaxAlloc m.maxAlloc depthLimit = false)
    (hfull : (prim (m.runtimeCallers :: m.implorer :: cs) (5 + recursion)
      depthLimit.toNat).1 = depthLimit) :
    implorer m prim (fuel + 1) cs depthLimit recursion
      = (⟨5 + recursion, depthLimit.toNat, depthLimit⟩ ::
          (implorer m prim fuel (m.implorer :: cs) (depthLimit * 128) (recursion + 1)).1,
        (implorer m prim fuel (m.implorer :: cs) (depthLimit * 128) (recursion + 1)).2) := by
  have hneg := make_succeeds m depthLimit hl halloc
  have hrec : ¬ (recursion < 0) := by omega
  have hisfull : isFull depthLimit depthLimit = .ok true := (isFull_true_iff _ _).2 rfl
  have hconst : depthLimit * (1024 / 8) = depthLimit * 128 := by norm_num
  simp only [implorer, hneg, hrec, if_false, List.length_replicate, fill_length, hfull,
    hisfull, hconst]

/-- In unlimited mode, for any primitive, the invocation number `i` of a run of `implorer`
uses a buffer of `depthLimit * 128 ^ i` slots and the skip `5 + recursion + i`. -/
theorem implorer_calls_capacity (m : Machinery) (prim : Primitive) :
    ∀ (fuel : Nat) (cs : List Frame) (depthLimit recursion : Int) (i : Nat) (call : Call),
      0 ≤ recursion →
      (implorer m prim fuel cs depthLimit recursion).1[i]? = some call →
      (call.capacity : Int) = depthLimit * 128 ^ i ∧ call.skip = 5 + recursion + i := by
  intro fuel
  induction fuel with
  | zero =>
    intro cs depthLimit recursion i call _ h
    simp [implorer] at h
  | succ n ih =>
    intro cs depthLimit recursion i call hr h
    have hrec : ¬ (recursion < 0) := by omega
    by_cases hfail : depthLimit < 0 ∨ exceedsMaxAlloc m.maxAlloc depthLimit = true
    · rw [implorer_make_fails m prim n cs depthLimit recursion hfail] at h
      simp at h
    · have hnn : 0 ≤ depthLimit := by
        by_contra hlt
        exact hfail (Or.inl (by omega))
      have halloc : exceedsMaxAlloc m.maxAlloc depthLimit = false := by
        cases hb : exceedsMaxAlloc m.maxAlloc depthLimit with
        | false => rfl
        | true => exact absurd (Or.inr hb) hfail
      have hcap : ((depthLimit.toNat : Nat) : Int) = depthLimit := Int.toNat_of_nonneg hnn
      obtain ⟨rest, hfirst⟩ := implorer_first_call m prim n cs depthLimit recursion hnn halloc
      cases i with
      | zero =>
        rw [hfirst] at h
        simp only [List.getElem?_cons_zero, Option.some.injEq] at h
        subst h
        simp [hcap]
      | succ i =>
        simp only [implorer, hfail, if_false, hrec, List.length_replicate, fill_length] at h
        generalize hd : (prim (m.runtimeCallers :: m.implorer :: cs) (5 + recursion)
          depthLimit.toNat).1 = depth at h
        cases hfull : isFull depth depthLimit with
        | ok b =>
          cases b with
          | true =>
            simp only [hfull, List.getElem?_cons_succ] at h
            have hconst : depthLimit * (1024 / 8) = depthLimit * 128 := by norm_num
            rw [hconst] at h
            obtain ⟨h1, h2⟩ := ih _ _ _ i call (by omega) h
            refine ⟨?_, ?_⟩
            · rw [h1]; ring
            · rw [h2]; push_cast; ring
          | false =>
            simp only [hfull] at h
            split at h <;> simp at h
        | panic msg => simp [hfull] at h
        | outOfFuel => simp [hfull] at h

/-- Whatever the primitive does, an `Exception` returned by `New` carries the given message
and cause. -/
theorem New_fields (m : Machinery) (prim : Primitive) (fuel : Nat) (cs : List Frame)
    (message : String) (cause : Option Exception) (e : Exception)
    (h : (New m prim fuel cs message cause).2 = .ok e) :
    e.Cause = cause ∧ e.Message = message ∧ e.Error = "Exception: " ++ message := by
  simp only [New] at h
  cases hc : (callers m prim fuel (m.New :: cs)).2 with
  | ok pc =>
    rw [hc] at h
    have he := Res.ok.inj h
    subst he
    exact ⟨rfl, rfl, rfl⟩
  | panic msg => rw [hc] at h; simp [Res.bind] at h
  | outOfFuel => rw [hc] at h; simp [Res.bind] at h

/-! ## Lemmas on the elimination loops -/

theorem index_of_lt (st : List Frame) (k : Nat) (h : k < st.length) :
    index st k = .ok (st.get ⟨k, h⟩) := by
  simp [index, List.getElem?_eq_getElem h]

/-- Result of the inner scan started at `j`. -/
theorem scanRun_spec (st : List Frame) (i : Nat) (hi : i < st.length) :
    ∀ (fuel j : Nat), j ≤ st.length → st.length ≤ fuel + j →
      ∃ j2, scanRun st i fuel j = .ok j2 ∧ j ≤ j2 ∧ j2 ≤ st.length
        ∧ (∀ k, j ≤ k → k < j2 → st[k]? = st[i]?)
        ∧ (j2 < st.length → st[j2]? ≠ st[i]?) := by
  intro fuel
  induction fuel with
  | zero =>
    intro j hj hfuel
    have hjl : ¬ j < st.length := by omega
    refine ⟨j, by simp [scanRun, hjl], le_refl _, hj, ?_, ?_⟩
    · intro k h1 h2; omega
    · intro h; omega
  | succ n ih =>
    intro j hj hfuel
    by_cases hjl : j < st.length
    · by_cases heq : st.get ⟨i, hi⟩ = st.get ⟨j, hjl⟩
      · obtain ⟨j2, h1, h2, h3, h4, h5⟩ := ih (j + 1) (by omega) (by omega)
        refine ⟨j2, ?_, by omega, h3, ?_, h5⟩
        · simp only [scanRun, hjl, if_true, index_of_lt st i hi, index_of_lt st j hjl, Res.bind,
            heq]
          exact h1
        · intro k hk1 hk2
          by_cases hkj : k = j
          · subst hkj
            rw [List.getElem?_eq_getElem hjl, List.getElem?_eq_getElem hi]
            simp only [List.get_eq_getElem] at heq
            rw [heq]
          · exact h4 k (by omega) hk2
      · refine ⟨j, ?_, le_refl _, hj, ?_, ?_⟩
        · simp only [scanRun, hjl, if_true, index_of_lt st i hi, index_of_lt st j hjl, Res.bind,
            heq, if_false]
        · intro k h1 h2; omega
        · intro _
          rw [List.getElem?_eq_getElem hjl, List.getElem?_eq_getElem hi]
          simp only [List.get_eq_getElem] at heq
          intro h
          exact heq (Option.some.inj h).symm
    · refine ⟨j, by simp [scanRun, hjl], le_refl _, hj, ?_, ?_⟩
      · intro k h1 h2; omega
      · intro h; omega


/-- What the iteration of the outer loop at `i` appends to `eliminated`. -/
theorem eliminateStep_spec (st : List Frame) (i : Nat) (hi : i + 1 < st.length)
    (eliminated : List Frame) :
    ∃ j add, scanRun st i st.length (i + 1) = .ok j ∧ i + 1 ≤ j ∧ j ≤ st.length
      ∧ eliminateStep st i eliminated = .ok (eliminated ++ add)
      ∧ (∀ x ∈ add, x ∈ st)
      ∧ (add = [] ↔ st[i]? ≠ st[i + 1]?)
      ∧ (j = st.length → add = st.take (i + 1)) := by
  obtain ⟨j, h1, h2, h3, h4, h5⟩ :=
    scanRun_spec st i (by omega) st.length (i + 1) (by omega) (by omega)
  have hto : sliceTo st (i + 1) = .ok (st.take (i + 1)) := by
    simp only [sliceTo, show i + 1 ≤ st.length by omega, if_true]
  have hfrom : sliceFrom st j = .ok (st.drop j) := by
    simp only [sliceFrom, h3, if_true]
  have hne : st.take (i + 1) ≠ [] := by
    intro h
    have := congrArg List.length h
    simp only [List.length_take, List.length_nil] at this
    omega
  by_cases hend : j = st.length
  · refine ⟨j, st.take (i + 1), h1, h2, h3, ?_, ?_, ?_, fun _ => rfl⟩
    · simp only [eliminateStep, h1, Res.bind, hend, if_true, hto]
    · intro x hx; exact List.mem_of_mem_take hx
    · constructor
      · intro h; exact absurd h hne
      · intro h
        exact absurd (h4 (i + 1) (le_refl _) (by omega)).symm h
  · have hlt : j < st.length := by omega
    by_cases hrun : j > i + 1
    · refine ⟨j, st.take (i + 1) ++ st.drop j, h1, h2, h3, ?_, ?_, ?_, fun h => absurd h hend⟩
      · simp only [eliminateStep, h1, Res.bind, hend, if_false, hlt, if_true, hrun, hto, hfrom,
          List.append_assoc]
      · intro x hx
        rcases List.mem_append.1 hx with hx | hx
        · exact List.mem_of_mem_take hx
        · exact List.mem_of_mem_drop hx
      · constructor
        · intro h
          exact absurd (List.append_eq_nil.1 h).1 hne
        · intro h
          exact absurd (h4 (i + 1) (le_refl _) (by omega)).symm h
    · have hj : j = i + 1 := by omega
      refine ⟨j, [], h1, h2, h3, ?_, ?_, ?_, fun h => absurd h hend⟩
      · simp only [eliminateStep, h1, Res.bind, hend, if_false, hlt, if_true, hrun,
          List.append_nil]
      · intro x hx; simp at hx
      · constructor
        · intro _ h
          exact h5 hlt (by rw [hj]; exact h.symm)
        · intro _; rfl

/-- The outer loop returns; its result holds frames of `eliminated` and of `st` only, and
is empty exactly when `eliminated` is empty and no index from `i` on has an equal successor. -/
theorem eliminateLoop_spec (st : List Frame) :
    ∀ (fuel i : Nat) (eliminated : List Frame), st.length ≤ fuel + i + 1 →
      ∃ out, eliminateLoop st fuel i eliminated = .ok out
        ∧ (∀ x ∈ out, x ∈ eliminated ∨ x ∈ st)
        ∧ (out = [] ↔ eliminated = []
            ∧ ∀ k, i ≤ k → k + 1 < st.length → st[k]? ≠ st[k + 1]?) := by
  intro fuel
  induction fuel with
  | zero =>
    intro i eliminated hfuel
    have hg : ¬ ((i : Int) < (st.length : Int) - 1) := by omega
    refine ⟨eliminated, by simp only [eliminateLoop, hg, if_false], fun x hx => Or.inl hx, ?_⟩
    constructor
    · intro h; exact ⟨h, fun k h1 h2 => by omega⟩
    · intro h; exact h.1
  | succ n ih =>
    intro i eliminated hfuel
    by_cases hg : (i : Int) < (st.length : Int) - 1
    · have hi : i + 1 < st.length := by omega
      obtain ⟨j, add, _, _, _, hstep, hmem, hnil, _⟩ := eliminateStep_spec st i hi eliminated
      obtain ⟨out, hout, hsub, hempty⟩ := ih (i + 1) (eliminated ++ add) (by omega)
      refine ⟨out, ?_, ?_, ?_⟩
      · simp only [eliminateLoop, hg, if_true, hstep, Res.bind]
        exact hout
      · intro x hx
        rcases hsub x hx with h | h
        · rcases List.mem_append.1 h with h | h
          · exact Or.inl h
          · exact Or.inr (hmem x h)
        · exact Or.inr h
      · rw [hempty, List.append_eq_nil, hnil]
        constructor
        · rintro ⟨⟨h1, h2⟩, h3⟩
          refine ⟨h1, fun k hk1 hk2 => ?_⟩
          by_cases hki : k = i
          · subst hki; exact h2
          · exact h3 k (by omega) hk2
        · rintro ⟨h1, h2⟩
          exact ⟨⟨h1, h2 i (le_refl _) hi⟩, fun k hk1 hk2 => h2 k (by omega) hk2⟩
    · refine ⟨eliminated, by simp only [eliminateLoop, hg, if_false], fun x hx => Or.inl hx, ?_⟩
      constructor
      · intro h; exact ⟨h, fun k h1 h2 => by omega⟩
      · intro h; exact h.1


/-- No index has an equal successor exactly when the stack is a chain of unequal neighbours. -/
theorem no_adjacent_equal_iff_chain (st : List Frame) :
    (∀ k, 0 ≤ k → k + 1 < st.length → st[k]? ≠ st[k + 1]?) ↔ List.Chain' (· ≠ ·) st := by
  rw [List.chain'_iff_get]
  constructor
  · intro h k hk
    have h1 : k + 1 < st.length := by omega
    have := h k (Nat.zero_le _) h1
    rw [List.getElem?_eq_getElem (by omega), List.getElem?_eq_getElem h1] at this
    simp only [List.get_eq_getElem]
    intro heq
    exact this (by rw [heq])
  · intro h k _ hk
    have := h k (by omega)
    rw [List.getElem?_eq_getElem (by omega), List.getElem?_eq_getElem hk]
    simp only [List.get_eq_getElem] at this
    intro heq
    exact this (Option.some.inj heq)

/-- On a stack of copies of one frame the outer loop appends `i + 1` copies at each index. -/
theorem eliminateLoop_replicate (a : Frame) (M : Nat) :
    ∀ (fuel i : Nat) (eliminated : List Frame), i ≤ M → M ≤ fuel + i →
      ∃ n, eliminateLoop (List.replicate (M + 1) a) fuel i eliminated
          = .ok (eliminated ++ List.replicate n a)
        ∧ 2 * n + i * (i + 1) = (M + 1) * M := by
  intro fuel
  induction fuel with
  | zero =>
    intro i eliminated hi hfuel
    have hiM : i = M := by omega
    have hg : ¬ ((i : Int) < ((List.replicate (M + 1) a).length : Int) - 1) := by
      simp only [List.length_replicate]; omega
    refine ⟨0, by simp only [eliminateLoop, hg, if_false, List.replicate_zero, List.append_nil],
      ?_⟩
    subst hiM; ring
  | succ n ih =>
    intro i eliminated hi hfuel
    by_cases hiM : i = M
    · have hg : ¬ ((i : Int) < ((List.replicate (M + 1) a).length : Int) - 1) := by
        simp only [List.length_replicate]; omega
      refine ⟨0, by simp only [eliminateLoop, hg, if_false, List.replicate_zero,
        List.append_nil], ?_⟩
      subst hiM; ring
    · have hg : (i : Int) < ((List.replicate (M + 1) a).length : Int) - 1 := by
        simp only [List.length_replicate]; omega
      have hlen : i + 1 < (List.replicate (M + 1) a).length := by
        simp only [List.length_replicate]; omega
      obtain ⟨j, add, hscan, _, _, hstep, _, _, hadd⟩ :=
        eliminateStep_spec (List.replicate (M + 1) a) i hlen eliminated
      obtain ⟨j2, hscan2, _, hj2, _, hstop⟩ :=
        scanRun_spec (List.replicate (M + 1) a) i (by omega)
          (List.replicate (M + 1) a).length (i + 1) (by omega) (by omega)
      have hjj : j = j2 := by
        rw [hscan] at hscan2; exact Res.ok.inj hscan2
      have hjend : j = (List.replicate (M + 1) a).length := by
        by_contra hne
        have hlt : j2 < (List.replicate (M + 1) a).length := by omega
        apply hstop hlt
        rw [List.getElem?_eq_getElem hlt, List.getElem?_eq_getElem (by omega)]
        simp only [List.getElem_replicate]
      have haddv : add = List.replicate (i + 1) a := by
        rw [hadd hjend, List.take_replicate]
        congr 1
        omega
      obtain ⟨n2, hrest, hsum⟩ := ih (i + 1) (eliminated ++ add) (by omega) (by omega)
      refine ⟨i + 1 + n2, ?_, ?_⟩
      · simp only [eliminateLoop, hg, if_true, hstep, Res.bind]
        rw [hrest, haddv, List.append_assoc, ← List.replicate_add]
      · have : (i + 1) * (i + 1 + 1) = i * (i + 1) + 2 * (i + 1) := by ring
        omega

/-! ## Recursion elimination: behaviour of the code on the stacks of the specification -/

/-- C1 (code defect): on the stack `[A, A, A, B, C]` with `A = 1`, `B = 2`, `C = 3`,
`EliminatedStackTrace` returns `[A, B, C, A, A, B, C]`: the iteration at `i = 1` appends the
slice `st[:2]` and the tail `st[3:]` a second time.  Collapsing every run of adjacent equal
frames gives `[A, B, C]`. -/
theorem C1_eliminated_AAABC_repeats_frames (cause : Option Exception) (message : String) :
    (Exception.mk cause message [1, 1, 1, 2, 3]).EliminatedStackTrace
        = .ok [1, 2, 3, 1, 1, 2, 3]
      ∧ collapseAdjacentSpec [1, 1, 1, 2, 3] = [1, 2, 3] :=
  ⟨rfl, rfl⟩

/-- C2 (code defect): on the cross-recursive stack `[A, B, A, B]` with `A = 1`, `B = 2`, in
which no two adjacent frames are equal, `EliminatedStackTrace` returns the empty sequence and
not the stack itself. -/
theorem C2_eliminated_ABAB_is_empty (cause : Option Exception) (message : String) :
    (Exception.mk cause message [1, 2, 1, 2]).EliminatedStackTrace = .ok []
      ∧ (Exception.mk cause message [1, 2, 1, 2]).EliminatedStackTrace ≠ .ok [1, 2, 1, 2] :=
  ⟨rfl, by
    rw [show (Exception.mk cause message [1, 2, 1, 2]).EliminatedStackTrace = .ok [] from rfl]
    decide⟩

/-- C3 (code defect): for every frame `A`, `EliminatedStackTrace` returns three copies of `A`
on the stack of three copies of `A` (`N = 3`), and the empty sequence on the stack `[A]`
(`N = 1`); neither is the single-element sequence `[A]`. -/
theorem C3_eliminated_repeated_frame (cause : Option Exception) (message : String)
    (a : Frame) :
    (Exception.mk cause message [a, a, a]).EliminatedStackTrace = .ok [a, a, a]
      ∧ (Exception.mk cause message [a]).EliminatedStackTrace = .ok [] := by
  constructor
  · simp [Exception.EliminatedStackTrace, Exception.StackTrace, eliminateLoop, eliminateStep,
      scanRun, index, sliceTo, sliceFrom, Res.bind]
  · rfl

/-- C4 (code defect): on the stack `[1, 1, 1, 2]` of four frames, `EliminatedStackTrace`
returns the five frames `[1, 2, 1, 1, 2]`: the result is longer than the input. -/
theorem C4_eliminated_longer_than_input (cause : Option Exception) (message : String) :
    ∃ out, (Exception.mk cause message [1, 1, 1, 2]).EliminatedStackTrace = .ok out
      ∧ out = [1, 2, 1, 1, 2]
      ∧ (Exception.mk cause message [1, 1, 1, 2]).StackTrace.length < out.length :=
  ⟨[1, 2, 1, 1, 2], rfl, rfl, by simp [Exception.StackTrace]⟩

/-- C5 (code defect): `EliminatedStackTrace` returns the empty sequence on the empty stack,
and also on every single-frame stack `[A]`, which is therefore not returned unchanged. -/
theorem C5_eliminated_single_frame_is_empty (cause : Option Exception) (message : String)
    (a : Frame) :
    (Exception.mk cause message []).EliminatedStackTrace = .ok []
      ∧ (Exception.mk cause message [a]).EliminatedStackTrace = .ok []
      ∧ (Exception.mk cause message [a]).EliminatedStackTrace ≠ .ok [a] :=
  ⟨rfl, rfl, by
    rw [show (Exception.mk cause message [a]).EliminatedStackTrace = .ok [] from rfl]
    simp⟩

/-- C6 (code defect): on the stack `[1, 2]`, `EliminatedStackTrace` returns the empty
sequence: the frames `1` and `2` occur in the stack and not in the result. -/
theorem C6_eliminated_drops_frames (cause : Option Exception) (message : String) :
    ∃ out, (Exception.mk cause message [1, 2]).EliminatedStackTrace = .ok out
      ∧ 1 ∈ (Exception.mk cause message [1, 2]).StackTrace ∧ 1 ∉ out
      ∧ 2 ∈ (Exception.mk cause message [1, 2]).StackTrace ∧ 2 ∉ out :=
  ⟨[], rfl, by simp [Exception.StackTrace], by simp, by simp [Exception.StackTrace], by simp⟩

/-! ## Stack capture -/

/-- C7: unlimited capture is never truncated.  With `runtime.Callers` writing the first
`min(len(buf), depth - skip)` frames after the skip, for every call stack `cs` of the caller,
every budget of at least `len(cs) + 1` nested calls and every allocation limit that admits
the buffers the loop asks for (none larger than 128 times the frames available, or 16),
`New` returns an `Exception` whose stored stack is the whole call stack at the first capture
(the frames of `runtime.Callers`, `implorer`, `callers`, `New`, then `cs`) without its first
five frames; its length is the depth of that stack minus five, however many retries were
made.  Without allocation limit (`maxAlloc = none`) the last hypothesis always holds. -/
theorem C7_unlimited_capture_never_truncated (m : Machinery) (cs : List Frame)
    (message : String) (cause : Option Exception) (fuel : Nat) (hfuel : cs.length + 1 ≤ fuel)
    (halloc : exceedsMaxAlloc m.maxAlloc ((max 16 (128 *
      ((m.runtimeCallers :: m.implorer :: m.callers :: m.New :: cs).drop 5).length) : Nat) : Int)
        = false) :
    ∃ e, (New m runtimeCallers fuel cs message cause).2 = .ok e
      ∧ e.StackTrace = (m.runtimeCallers :: m.implorer :: m.callers :: m.New :: cs).drop 5
      ∧ e.StackTrace.length
          = (m.runtimeCallers :: m.implorer :: m.callers :: m.New :: cs).length - 5 :=
  ⟨_, New_stored m cs message cause fuel hfuel halloc, rfl, by
    simp only [Exception.StackTrace, List.length_drop]⟩

/-- Witness of C7 on a call stack of 25 frames, deeper than the initial capacity 16, with
the allocation limit of 64-bit Linux. -/
theorem C7_unlimited_capture_witness :
    ∃ e, (New ⟨1, 2, 3, 4, 5, 6, 7, some (2 ^ 48)⟩ runtimeCallers 26 (List.range 25) "deep"
          none).2 = .ok e
      ∧ e.StackTrace = (1 :: 2 :: 3 :: 4 :: List.range 25).drop 5
      ∧ e.StackTrace.length = (1 :: 2 :: 3 :: 4 :: List.range 25).length - 5 :=
  C7_unlimited_capture_never_truncated ⟨1, 2, 3, 4, 5, 6, 7, some (2 ^ 48)⟩ (List.range 25)
    "deep" none 26 (by decide) (by decide)

/-- C8 (counterexample): with the allocation limit `2^48` of 64-bit Linux and the limit
`2^62`, `NewWithStackTraceDepthLimit` panics in `make([]uintptr, limit)`; the primitive is
not invoked and no stack is stored. -/
theorem C8_unallocatable_limit_panics :
    (NewWithStackTraceDepthLimit ⟨1, 2, 3, 4, 5, 6, 7, some (2 ^ 48)⟩ runtimeCallers 1
        [10, 20, 30, 40] "m" none (2 ^ 62)).1 = []
      ∧ (NewWithStackTraceDepthLimit ⟨1, 2, 3, 4, 5, 6, 7, some (2 ^ 48)⟩ runtimeCallers 1
        [10, 20, 30, 40] "m" none (2 ^ 62)).2 = .panic "makeslice: len out of range" := by
  have h := implorer_make_fails ⟨1, 2, 3, 4, 5, 6, 7, some (2 ^ 48)⟩ runtimeCallers 0
    (5 :: [10, 20, 30, 40]) (2 ^ 62) (-1) (Or.inr (by decide))
  constructor
  · show (implorer ⟨1, 2, 3, 4, 5, 6, 7, some (2 ^ 48)⟩ runtimeCallers (0 + 1)
      (5 :: [10, 20, 30, 40]) (2 ^ 62) (-1)).1 = []
    rw [h]
  · simp only [NewWithStackTraceDepthLimit]
    rw [h]
    rfl

/-- C8 (amended): bounded capture.  For every `limit ≥ 0` that `make([]uintptr, limit)` can
allocate and every call stack `cs` of the caller, `NewWithStackTraceDepthLimit` invokes the
primitive exactly once, with skip 4 and a buffer of `limit` slots, whatever the primitive
does; with `runtime.Callers` it stores exactly the frames the primitive wrote, the first
`limit` frames after the skip, so the stored stack has exactly `limit` frames when more
than `limit` frames are available after the skip. -/
theorem C8_bounded_capture_single_call (m : Machinery) (cs : List Frame) (message : String)
    (cause : Option Exception) (limit : Int) (fuel : Nat) (hlimit : 0 ≤ limit)
    (halloc : exceedsMaxAlloc m.maxAlloc limit = false) :
    (∀ prim : Primitive,
        (NewWithStackTraceDepthLimit m prim (fuel + 1) cs message cause limit).1
          = [⟨4, limit.toNat,
              (prim (m.runtimeCallers :: m.implorer :: m.NewWithStackTraceDepthLimit :: cs)
                4 limit.toNat).1⟩])
      ∧ ∃ e, (NewWithStackTraceDepthLimit m runtimeCallers (fuel + 1) cs message cause limit).2
            = .ok e
          ∧ e.StackTrace
            = (runtimeCallers
                (m.runtimeCallers :: m.implorer :: m.NewWithStackTraceDepthLimit :: cs)
                4 limit.toNat).2
          ∧ e.StackTrace
            = ((m.runtimeCallers :: m.implorer :: m.NewWithStackTraceDepthLimit :: cs).drop 4).take
                limit.toNat
          ∧ (limit < (((m.runtimeCallers :: m.implorer :: m.NewWithStackTraceDepthLimit
                :: cs).drop 4).length : Int) →
              (e.StackTrace.length : Int) = limit) := by
  refine ⟨?_, Exception.mk cause message (runtimeCallers
    (m.runtimeCallers :: m.implorer :: m.NewWithStackTraceDepthLimit :: cs) 4 limit.toNat).2,
    ?_, rfl, rfl, ?_⟩
  · intro prim
    exact implorer_limited_calls m prim fuel _ limit (-1) hlimit (by decide) halloc
  · simp only [NewWithStackTraceDepthLimit]
    rw [implorer_limited_result m fuel _ limit (-1) hlimit (by decide) halloc]
    rfl
  · intro h
    simp only [Exception.StackTrace, runtimeCallers, List.length_take]
    have : (4 : Int).toNat = 4 := rfl
    rw [this]
    omega

/-- Witness of C8 (amended): limit 2 on a caller stack of four frames, of which three
remain after the skip. -/
theorem C8_bounded_capture_witness :
    (NewWithStackTraceDepthLimit ⟨1, 2, 3, 4, 5, 6, 7, some (2 ^ 48)⟩ runtimeCallers 1
        [10, 20, 30, 40] "m" none 2).1 = [⟨4, 2, 2⟩]
      ∧ ∃ e, (NewWithStackTraceDepthLimit ⟨1, 2, 3, 4, 5, 6, 7, some (2 ^ 48)⟩ runtimeCallers 1
            [10, 20, 30, 40] "m" none 2).2 = .ok e
          ∧ e.StackTrace = [20, 30]
          ∧ (e.StackTrace.length : Int) = 2 :=
  have h := C8_bounded_capture_single_call ⟨1, 2, 3, 4, 5, 6, 7, some (2 ^ 48)⟩
    [10, 20, 30, 40] "m" none 2 0 (by decide) (by decide)
  ⟨h.1 runtimeCallers, h.2.choose, h.2.choose_spec.1, h.2.choose_spec.2.2.1,
    h.2.choose_spec.2.2.2 (by decide)⟩

/-- C9 (code defect): when `f` calls `New` directly and `f` was called by `caller`, the
stored stack is `[caller]` (unless the platform cannot even allocate the first buffer of 16
slots, in which case `New` panics): the skip of five frames removes the four frames of the
capture machinery (`runtime.Callers`, `implorer`, `callers`, `New`) and the frame of `f` as
well, so frame 0 of the stored stack is not the frame of `f`. -/
theorem C9_New_skips_the_calling_frame (m : Machinery) (f caller : Frame) (message : String)
    (cause : Option Exception) (fuel : Nat) :
    (New m runtimeCallers (fuel + 1) [f, caller] message cause).2
      = if exceedsMaxAlloc m.maxAlloc 16 = true then .panic "makeslice: len out of range"
        else .ok (Exception.mk cause message [caller]) := by
  by_cases hbig : exceedsMaxAlloc m.maxAlloc 16 = true
  · have h := implorer_make_fails m runtimeCallers fuel (m.callers :: m.New :: [f, caller])
      16 0 (Or.inr hbig)
    simp only [New, callers, h, hbig, if_true, Res.bind]
  · have halloc : exceedsMaxAlloc m.maxAlloc 16 = false := by
      cases hb : exceedsMaxAlloc m.maxAlloc 16 with
      | false => rfl
      | true => exact absurd hb hbig
    have h := implorer_fit m [caller] fuel 16 0 (m.callers :: m.New :: [f, caller]) rfl
      (by simp) halloc
    rw [show ((16 : Nat) : Int) = 16 from rfl, show ((0 : Nat) : Int) = 0 from rfl] at h
    simp only [New, callers, h, halloc, Res.bind]
    rfl

/-- C10: for all integers `length` and `limit`, `isFull` returns `false` exactly when
`length < limit`, returns `true` exactly when `length = limit`, and panics exactly when
`length > limit`; and in unlimited mode (`recursion ≥ 0`), for any primitive, a run of
`implorer` in which some invocation of the primitive reported more frames than the
capacity of its buffer ends in a panic and returns no result. -/
theorem C10_isFull_and_overrun_panics :
    (∀ length limit : Int,
        (isFull length limit = .ok false ↔ length < limit)
          ∧ (isFull length limit = .ok true ↔ length = limit)
          ∧ ((∃ msg, isFull length limit = .panic msg) ↔ limit < length))
      ∧ (∀ (m : Machinery) (prim : Primitive) (fuel : Nat) (cs : List Frame)
          (depthLimit recursion : Int), 0 ≤ recursion →
          (∃ c ∈ (implorer m prim fuel cs depthLimit recursion).1,
              (c.capacity : Int) < c.reported) →
          ∃ msg, (implorer m prim fuel cs depthLimit recursion).2 = .panic msg) :=
  ⟨fun length limit => ⟨isFull_false_iff length limit, isFull_true_iff length limit,
      isFull_panic_iff length limit⟩,
    fun m prim fuel cs depthLimit recursion =>
      implorer_overrun_panics m prim fuel cs depthLimit recursion⟩

/-- Witness of C10: `isFull 17 16` panics, and `implorer(16, 0)` run with a primitive that
reports 17 frames for a buffer of 16 slots panics. -/
theorem C10_isFull_and_overrun_witness :
    (∃ msg, isFull 17 16 = .panic msg)
      ∧ ∃ msg, (implorer ⟨1, 2, 3, 4, 5, 6, 7, some (2 ^ 48)⟩ overrunningPrimitive 1
          [3, 4, 10] 16 0).2 = .panic msg :=
  ⟨(C10_isFull_and_overrun_panics.1 17 16).2.2.2 (by decide),
    C10_isFull_and_overrun_panics.2 ⟨1, 2, 3, 4, 5, 6, 7, some (2 ^ 48)⟩ overrunningPrimitive 1
      [3, 4, 10] 16 0 (by decide) ⟨⟨5, 16, 17⟩, by decide, by decide⟩⟩

/-! ## Growth of the buffer, conversion and embedding -/

/-- C11 (counterexample): with 18 frames available after the skip, the first attempt of
`callers` fills its buffer of 16 slots exactly and the retry uses a buffer of 2048 slots,
which is not 1024 times 16. -/
theorem C11_retry_is_not_1024_times :
    ∃ c1 c2, (callers ⟨1, 2, 3, 4, 5, 6, 7, some (2 ^ 48)⟩ runtimeCallers 2
          (List.range 20)).1 = [c1, c2]
      ∧ c1.reported = (c1.capacity : Int) ∧ c2.capacity ≠ 1024 * c1.capacity := by
  have h1 := implorer_retry ⟨1, 2, 3, 4, 5, 6, 7, some (2 ^ 48)⟩ ((List.range 20).drop 2) 1 16 0
    (3 :: List.range 20) rfl (by decide) (by decide)
  have h2 := implorer_fit ⟨1, 2, 3, 4, 5, 6, 7, some (2 ^ 48)⟩ ((List.range 20).drop 2) 0
    (16 * 128) (0 + 1) (2 :: 3 :: List.range 20) rfl (by decide) (by decide)
  refine ⟨⟨5, 16, 16⟩, ⟨6, 2048, 18⟩, ?_, by decide, by decide⟩
  simp only [callers]
  rw [show ((16 : Nat) : Int) = 16 from rfl, show ((0 : Nat) : Int) = 0 from rfl] at h1
  exact (congrArg Prod.fst h1).trans (by rw [h2]; rfl)

/-- C11 (amended): in unlimited mode, for any primitive, whenever a capture attempt with a
buffer of `depthLimit` slots returns a count equal to `depthLimit`, the next invocation of
the primitive uses a buffer of `128 * depthLimit` slots (the constant `1024/8`) and one
more skipped frame, provided `make` can allocate that buffer (always the case without
allocation limit). -/
theorem C11_retry_capacity_times_128 (m : Machinery) (prim : Primitive) (fuel : Nat)
    (cs : List Frame) (depthLimit recursion : Int) (hl : 0 ≤ depthLimit) (hr : 0 ≤ recursion)
    (hfull : (prim (m.runtimeCallers :: m.implorer :: cs) (5 + recursion)
      depthLimit.toNat).1 = depthLimit)
    (halloc : exceedsMaxAlloc m.maxAlloc (depthLimit * 128) = false) :
    ∃ c rest, (implorer m prim (fuel + 2) cs depthLimit recursion).1
        = ⟨5 + recursion, depthLimit.toNat, depthLimit⟩ :: c :: rest
      ∧ c.capacity = 128 * depthLimit.toNat ∧ c.skip = 5 + recursion + 1 := by
  obtain ⟨rest, hrest⟩ := implorer_first_call m prim fuel (m.implorer :: cs) (depthLimit * 128)
    (recursion + 1) (by omega) halloc
  refine ⟨⟨5 + (recursion + 1), (depthLimit * 128).toNat,
    (prim (m.runtimeCallers :: m.implorer :: m.implorer :: cs) (5 + (recursion + 1))
      (depthLimit * 128).toNat).1⟩, rest, ?_, ?_, ?_⟩
  · rw [implorer_exact_fill m prim (fuel + 1) cs depthLimit recursion hl hr
      (exceedsMaxAlloc_mono _ _ _ halloc (by omega)) hfull, hrest]
  · show (depthLimit * 128).toNat = 128 * depthLimit.toNat
    omega
  · show 5 + (recursion + 1) = 5 + recursion + 1
    ring

/-- Witness of C11 (amended): `implorer(16, 0)` under 21 caller frames. -/
theorem C11_retry_capacity_witness :
    ∃ c rest, (implorer ⟨1, 2, 3, 4, 5, 6, 7, some (2 ^ 48)⟩ runtimeCallers (0 + 2)
          (3 :: List.range 20) 16 0).1
        = ⟨5 + 0, (16 : Int).toNat, 16⟩ :: c :: rest
      ∧ c.capacity = 128 * (16 : Int).toNat ∧ c.skip = 5 + 0 + 1 :=
  C11_retry_capacity_times_128 ⟨1, 2, 3, 4, 5, 6, 7, some (2 ^ 48)⟩ runtimeCallers 0
    (3 :: List.range 20) 16 0 (by decide) (by decide) (by decide) (by decide)

/-- C12: for every error text `err.Error()`, `FromError` returns (with the runtime
primitive, a budget of `len(cs) + 2` nested calls and buffers within the allocation limit,
which is always so without limit), and an `Exception` `e` it returns, under any primitive,
has `e.Cause() = nil`, `e.Message() = err.Error()` and
`e.Error() = "Exception: " + err.Error()`. -/
theorem C12_FromError_fields (m : Machinery) (cs : List Frame) (errText : String)
    (fuel : Nat) (hfuel : cs.length + 2 ≤ fuel)
    (halloc : exceedsMaxAlloc m.maxAlloc ((max 16 (128 * cs.length) : Nat) : Int) = false) :
    (∃ e, (FromError m runtimeCallers fuel cs errText).2 = .ok e)
      ∧ ∀ (prim : Primitive) (budget : Nat) (e : Exception),
          (FromError m prim budget cs errText).2 = .ok e →
          e.Cause = none ∧ e.Message = errText ∧ e.Error = "Exception: " ++ errText :=
  ⟨⟨_, New_stored m (m.FromError :: cs) errText none fuel
      (by simp only [List.length_cons]; omega) halloc⟩,
    fun prim budget e h => New_fields m prim budget (m.FromError :: cs) errText none e h⟩

/-- Witness of C12 on the error text of `TestFromError`. -/
theorem C12_FromError_witness :
    ∃ e, (FromError ⟨1, 2, 3, 4, 5, 6, 7, some (2 ^ 48)⟩ runtimeCallers 4 [10, 20]
          "a random error").2 = .ok e
      ∧ e.Cause = none ∧ e.Message = "a random error"
      ∧ e.Error = "Exception: " ++ "a random error" :=
  have h := C12_FromError_fields ⟨1, 2, 3, 4, 5, 6, 7, some (2 ^ 48)⟩ [10, 20]
    "a random error" 4 (by decide) (by decide)
  ⟨h.1.choose, h.1.choose_spec, h.2 runtimeCallers 4 h.1.choose h.1.choose_spec⟩

/-- C13: for every `Exception` `e` and frame sequence `s`, after `e.SetStackTrace(s)` the
method `StackTrace()` returns exactly `s`, whatever stack `e` held before. -/
theorem C13_SetStackTrace_StackTrace (e : Exception) (s : List Frame) :
    (e.SetStackTrace s).StackTrace = s := by
  cases e
  rfl

/-- C14: `NullReference` adds no data and forwards every operation.  Two `NullReference`
values with the same embedded `Exception` are equal, and each of the seven methods of
`Throwable` on a `NullReference` is the method of the embedded `Exception` (`Cause`,
`Message`, `StackTrace`, `EliminatedStackTrace`, `SetStackTrace`, `PrintStackTrace`,
`Error`).  For every message and cause, `NewNullReference` returns a `NullReference` whose
`Message()`, `Cause()` and `Error()` equal those of the `Exception` returned by `New` with
the same arguments, namely the message, the cause and `"Exception: " + message`; its
`StackTrace()` is that of the embedded `Exception`, the call stack of the caller. -/
theorem C14_NullReference_forwards (m : Machinery) (cs : List Frame) (message : String)
    (cause : Option Exception) (fuel : Nat) (hfuel : cs.length + 2 ≤ fuel)
    (halloc : exceedsMaxAlloc m.maxAlloc ((max 16 (128 * cs.length) : Nat) : Int) = false) :
    (∀ n1 n2 : NullReference, n1.Exception = n2.Exception → n1 = n2)
      ∧ (∀ (x : NullReference) (s : List Frame) (render : List Frame → String) (w : String),
          x.Cause = x.Exception.Cause
            ∧ x.Message = x.Exception.Message
            ∧ x.StackTrace = x.Exception.StackTrace
            ∧ x.EliminatedStackTrace = x.Exception.EliminatedStackTrace
            ∧ (x.SetStackTrace s).Exception = x.Exception.SetStackTrace s
            ∧ (x.SetStackTrace s).StackTrace = s
            ∧ x.PrintStackTrace render w = x.Exception.PrintStackTrace render w
            ∧ x.Error = x.Exception.Error)
      ∧ ∃ n e, (NewNullReference m runtimeCallers fuel cs message cause).2 = .ok n
          ∧ (New m runtimeCallers fuel cs message cause).2 = .ok e
          ∧ n.Message = e.Message ∧ n.Cause = e.Cause ∧ n.Error = e.Error
          ∧ n.Message = message ∧ n.Cause = cause ∧ n.Error = "Exception: " ++ message
          ∧ n.StackTrace = n.Exception.StackTrace ∧ n.StackTrace = cs := by
  have h1 := New_stored m (m.NewNullReference :: cs) message cause fuel
    (by simp only [List.length_cons]; omega) halloc
  have h2 := New_stored m cs message cause fuel (by omega)
    (exceedsMaxAlloc_mono _ _ _ halloc (by
      have : ((m.runtimeCallers :: m.implorer :: m.callers :: m.New :: cs).drop 5).length
          ≤ cs.length := by
        simp only [List.length_drop, List.length_cons]; omega
      have : max 16 (128 *
          ((m.runtimeCallers :: m.implorer :: m.callers :: m.New :: cs).drop 5).length)
          ≤ max 16 (128 * cs.length) := by omega
      exact_mod_cast this))
  refine ⟨?_, ?_, NullReference.mk (Exception.mk cause message cs), _, ?_, h2,
    rfl, rfl, rfl, rfl, rfl, rfl, rfl, rfl⟩
  · intro n1 n2 h
    cases n1
    cases n2
    cases h
    rfl
  · intro x s render w
    refine ⟨rfl, rfl, rfl, rfl, rfl, ?_, rfl, rfl⟩
    cases x with
    | mk e => cases e; rfl
  · simp only [NewNullReference, h1, Res.bind]
    rfl

/-- Witness of C14 on a caller stack of two frames. -/
theorem C14_NullReference_witness :
    ∃ n e, (NewNullReference ⟨1, 2, 3, 4, 5, 6, 7, some (2 ^ 48)⟩ runtimeCallers 4 [10, 20]
          "nil map" none).2 = .ok n
      ∧ (New ⟨1, 2, 3, 4, 5, 6, 7, some (2 ^ 48)⟩ runtimeCallers 4 [10, 20] "nil map"
          none).2 = .ok e
      ∧ n.Message = e.Message ∧ n.Cause = e.Cause ∧ n.Error = e.Error
      ∧ n.Message = "nil map" ∧ n.Cause = none ∧ n.Error = "Exception: " ++ "nil map"
      ∧ n.StackTrace = n.Exception.StackTrace ∧ n.StackTrace = [10, 20] :=
  (C14_NullReference_forwards ⟨1, 2, 3, 4, 5, 6, 7, some (2 ^ 48)⟩ [10, 20] "nil map" none 4
    (by decide) (by decide)).2.2

/-- C15: with `a` frames available after the skip, the unlimited capture of `callers`
returns (budget of `len(cs) + 1` nested calls, buffers within the allocation limit, which is
always so without limit), and its invocations of the primitive are `k` attempts with
buffers of `16 * 128 ^ i` slots that were filled exactly, followed by one attempt with
`16 * 128 ^ k` slots that reported `a`, where `16 * 128 ^ k` is the least capacity of that
form strictly greater than `a`; with exactly 16 frames available there is one retry
(`k = 1`). -/
theorem C15_unlimited_loop_stops_at_first_unfilled (m : Machinery) (cs : List Frame)
    (fuel : Nat) (hfuel : cs.length + 1 ≤ fuel)
    (halloc : exceedsMaxAlloc m.maxAlloc ((max 16 (128 *
      ((m.runtimeCallers :: m.implorer :: m.callers :: cs).drop 5).length) : Nat) : Int)
        = false) :
    ∃ k, ((m.runtimeCallers :: m.implorer :: m.callers :: cs).drop 5).length < 16 * 128 ^ k
      ∧ (∀ j, j < k →
          16 * 128 ^ j ≤ ((m.runtimeCallers :: m.implorer :: m.callers :: cs).drop 5).length)
      ∧ (callers m runtimeCallers fuel cs).1
          = (List.range k).map
              (fun i => (⟨((5 + 0 + i : Nat) : Int), 16 * 128 ^ i, ((16 * 128 ^ i : Nat) : Int)⟩ : Call))
            ++ [⟨((5 + 0 + k : Nat) : Int), 16 * 128 ^ k,
                (((m.runtimeCallers :: m.implorer :: m.callers :: cs).drop 5).length : Int)⟩]
      ∧ (callers m runtimeCallers fuel cs).2
          = .ok ((m.runtimeCallers :: m.implorer :: m.callers :: cs).drop 5)
      ∧ (((m.runtimeCallers :: m.implorer :: m.callers :: cs).drop 5).length = 16 → k = 1) := by
  have hlen : ((m.runtimeCallers :: m.implorer :: m.callers :: cs).drop 5).length + 2
      ≤ fuel + 16 := by
    simp only [List.length_drop, List.length_cons]; omega
  obtain ⟨k, hk1, hk2, hk3⟩ := implorer_unlimited_calls m
    ((m.runtimeCallers :: m.implorer :: m.callers :: cs).drop 5) fuel 16 0 (m.callers :: cs)
    (by omega) (by omega) rfl hlen halloc
  have hres := implorer_unlimited m
    ((m.runtimeCallers :: m.implorer :: m.callers :: cs).drop 5) fuel 16 0 (m.callers :: cs)
    (by omega) (by omega) rfl hlen halloc
  rw [show ((16 : Nat) : Int) = 16 from rfl, show ((0 : Nat) : Int) = 0 from rfl] at hk3 hres
  refine ⟨k, hk1, hk2, hk3, ?_, ?_⟩
  · simp only [callers, hres, Res.bind]
  · intro h16
    rw [h16] at hk1 hk2
    rcases k with _ | _ | k
    · simp at hk1
    · rfl
    · have := hk2 1 (by omega)
      simp at this

/-- Witness of C15 on a caller stack of 18 frames, of which 16 remain after the skip. -/
theorem C15_unlimited_loop_witness :
    ∃ k, ((1 :: 2 :: 3 :: List.range 18).drop 5).length < 16 * 128 ^ k
      ∧ (∀ j, j < k → 16 * 128 ^ j ≤ ((1 :: 2 :: 3 :: List.range 18).drop 5).length)
      ∧ (callers ⟨1, 2, 3, 4, 5, 6, 7, some (2 ^ 48)⟩ runtimeCallers 19 (List.range 18)).1
          = (List.range k).map
              (fun i => (⟨((5 + 0 + i : Nat) : Int), 16 * 128 ^ i, ((16 * 128 ^ i : Nat) : Int)⟩ : Call))
            ++ [⟨((5 + 0 + k : Nat) : Int), 16 * 128 ^ k,
                (((1 :: 2 :: 3 :: List.range 18).drop 5).length : Int)⟩]
      ∧ (callers ⟨1, 2, 3, 4, 5, 6, 7, some (2 ^ 48)⟩ runtimeCallers 19 (List.range 18)).2
          = .ok ((1 :: 2 :: 3 :: List.range 18).drop 5)
      ∧ (((1 :: 2 :: 3 :: List.range 18).drop 5).length = 16 → k = 1) :=
  C15_unlimited_loop_stops_at_first_unfilled ⟨1, 2, 3, 4, 5, 6, 7, some (2 ^ 48)⟩
    (List.range 18) 19 (by decide) (by decide)

/-- C16: starting from the capacity 16 of `callers` and with 8 bytes per frame identifier,
the buffer of the second invocation of the primitive, whenever there is one, has exactly
16 KiB (16384 bytes) and the buffer of the third has exactly 2 MiB (2097152 bytes), for
any primitive; with the runtime primitive, 2048 frames available after the skip, a budget
of three calls and an allocation limit of at least 2 MiB (or none), both invocations take
place. -/
theorem C16_second_and_third_buffer_sizes (m : Machinery) (cs : List Frame) (fuel : Nat)
    (hfuel : 3 ≤ fuel)
    (hdeep : 2048 ≤ ((m.runtimeCallers :: m.implorer :: m.callers :: cs).drop 5).length)
    (halloc : exceedsMaxAlloc m.maxAlloc ((16 * 128 * 128 : Nat) : Int) = false) :
    (∃ c1 c2, (callers m runtimeCallers fuel cs).1[1]? = some c1
        ∧ (callers m runtimeCallers fuel cs).1[2]? = some c2)
      ∧ ∀ (prim : Primitive) (budget : Nat) (stack : List Frame),
          (∀ c, (callers m prim budget stack).1[1]? = some c →
              uintptrSize * c.capacity = 16 * 1024 ∧ uintptrSize * c.capacity = 16384)
          ∧ (∀ c, (callers m prim budget stack).1[2]? = some c →
              uintptrSize * c.capacity = 2 * 1024 * 1024
                ∧ uintptrSize * c.capacity = 2097152) := by
  constructor
  · obtain ⟨f, rfl⟩ : ∃ f, fuel = f + 3 := ⟨fuel - 3, by omega⟩
    have h1 := implorer_retry m
      ((m.runtimeCallers :: m.implorer :: m.callers :: cs).drop 5) (f + 2) 16 0
      (m.callers :: cs) rfl (by omega)
      (exceedsMaxAlloc_mono _ _ _ halloc (by norm_num))
    have h2 := implorer_retry m
      ((m.runtimeCallers :: m.implorer :: m.callers :: cs).drop 5) (f + 1) (16 * 128) (0 + 1)
      (m.implorer :: m.callers :: cs) (drop_skip_retry m (m.callers :: cs) 0) (by omega)
      (exceedsMaxAlloc_mono _ _ _ halloc (by norm_num))
    obtain ⟨rest, h3⟩ := implorer_first_call m runtimeCallers f
      (m.implorer :: m.implorer :: m.callers :: cs) ((16 * 128 * 128 : Nat) : Int)
      ((0 + 1 + 1 : Nat) : Int) (by omega) halloc
    have hlog : (callers m runtimeCallers (f + 3) cs).1
        = (implorer m runtimeCallers (f + 2 + 1) (m.callers :: cs) ((16 : Nat) : Int)
            ((0 : Nat) : Int)).1 := rfl
    rw [hlog, h1]
    simp only [h2, h3, List.getElem?_cons_succ, List.getElem?_cons_zero]
    exact ⟨_, _, rfl, rfl⟩
  · intro prim budget stack
    constructor
    · intro c hc
      have h := (implorer_calls_capacity m prim budget (m.callers :: stack) 16 0 1 c
        (le_refl _) hc).1
      simp only [uintptrSize]
      omega
    · intro c hc
      have h := (implorer_calls_capacity m prim budget (m.callers :: stack) 16 0 2 c
        (le_refl _) hc).1
      simp only [uintptrSize]
      omega

/-- Witness of C16 on a caller stack of 3000 frames. -/
theorem C16_buffer_sizes_witness :
    ∃ c1 c2, (callers ⟨1, 2, 3, 4, 5, 6, 7, some (2 ^ 48)⟩ runtimeCallers 3
          (List.replicate 3000 9)).1[1]? = some c1
      ∧ (callers ⟨1, 2, 3, 4, 5, 6, 7, some (2 ^ 48)⟩ runtimeCallers 3
          (List.replicate 3000 9)).1[2]? = some c2
      ∧ uintptrSize * c1.capacity = 16384 ∧ uintptrSize * c2.capacity = 2097152 :=
  have h := C16_second_and_third_buffer_sizes ⟨1, 2, 3, 4, 5, 6, 7, some (2 ^ 48)⟩
    (List.replicate 3000 9) 3 (by decide)
    (by rw [List.length_drop, List.length_cons, List.length_cons, List.length_cons,
      List.length_replicate]; decide) (by decide)
  ⟨h.1.choose, h.1.choose_spec.choose, h.1.choose_spec.choose_spec.1,
    h.1.choose_spec.choose_spec.2,
    ((h.2 runtimeCallers 3 (List.replicate 3000 9)).1 _ h.1.choose_spec.choose_spec.1).2,
    ((h.2 runtimeCallers 3 (List.replicate 3000 9)).2 _ h.1.choose_spec.choose_spec.2).2⟩

/-- C17: `EliminatedStackTrace` is total and never panics.  For every stack it returns a
sequence (no index or slice expression is out of bounds, the branch that panics with
`BUG: EliminatedStackTrace()` is not taken, both loops end), and at every index `i` the
outer loop visits, the inner scan ends with `i + 1 ≤ j ≤ len(st)`. -/
theorem C17_eliminated_total (e : Exception) :
    (∃ out, e.EliminatedStackTrace = .ok out)
      ∧ ∀ i, i + 1 < e.StackTrace.length →
          ∃ j, scanRun e.StackTrace i e.StackTrace.length (i + 1) = .ok j
            ∧ i + 1 ≤ j ∧ j ≤ e.StackTrace.length := by
  constructor
  · obtain ⟨out, h, _⟩ := eliminateLoop_spec e.StackTrace e.StackTrace.length 0 [] (by omega)
    exact ⟨out, h⟩
  · intro i hi
    obtain ⟨j, h1, h2, h3, _⟩ :=
      scanRun_spec e.StackTrace i (by omega) e.StackTrace.length (i + 1) (by omega) (by omega)
    exact ⟨j, h1, h2, h3⟩

/-- C18: for every stack, `EliminatedStackTrace` returns the empty sequence if and only if
no two adjacent frames of the stack are equal; in particular it returns the empty sequence
for every stack of length 0 or 1. -/
theorem C18_eliminated_empty_iff (e : Exception) :
    (e.EliminatedStackTrace = .ok [] ↔ List.Chain' (· ≠ ·) e.StackTrace)
      ∧ (e.StackTrace.length ≤ 1 → e.EliminatedStackTrace = .ok []) := by
  obtain ⟨out, h, _, hempty⟩ :=
    eliminateLoop_spec e.StackTrace e.StackTrace.length 0 [] (by omega)
  have hiff : e.EliminatedStackTrace = .ok [] ↔ List.Chain' (· ≠ ·) e.StackTrace := by
    rw [← no_adjacent_equal_iff_chain]
    simp only [Exception.EliminatedStackTrace, h]
    constructor
    · intro hout
      exact (hempty.1 (Res.ok.inj hout)).2
    · intro hk
      rw [hempty.2 ⟨rfl, hk⟩]
  refine ⟨hiff, fun hlen => hiff.2 ?_⟩
  rw [← no_adjacent_equal_iff_chain]
  intro k _ hk
  omega

/-- C19: for every frame `A` and every `N ≥ 1`, `EliminatedStackTrace` on the stack of `N`
copies of `A` returns exactly `N * (N - 1) / 2` copies of `A`. -/
theorem C19_eliminated_replicate (cause : Option Exception) (message : String) (a : Frame)
    (N : Nat) (hN : 1 ≤ N) :
    (Exception.mk cause message (List.replicate N a)).EliminatedStackTrace
      = .ok (List.replicate (N * (N - 1) / 2) a) := by
  obtain ⟨M, rfl⟩ : ∃ M, N = M + 1 := ⟨N - 1, by omega⟩
  obtain ⟨n, h, hsum⟩ := eliminateLoop_replicate a M (List.replicate (M + 1) a).length 0 []
    (Nat.zero_le _) (by simp only [List.length_replicate]; omega)
  simp only [Exception.EliminatedStackTrace, Exception.StackTrace, h, List.nil_append]
  have hn : n = (M + 1) * (M + 1 - 1) / 2 := by
    simp only [Nat.add_sub_cancel]
    omega
  rw [hn]

/-- C20: for every stack, `EliminatedStackTrace` returns a sequence all of whose frames
occur in the stack. -/
theorem C20_eliminated_no_new_frames (e : Exception) :
    ∃ out, e.EliminatedStackTrace = .ok out ∧ ∀ x ∈ out, x ∈ e.StackTrace := by
  obtain ⟨out, h, hsub, _⟩ :=
    eliminateLoop_spec e.StackTrace e.StackTrace.length 0 [] (by omega)
  refine ⟨out, h, fun x hx => ?_⟩
  rcases hsub x hx with h1 | h1
  · simp at h1
  · exact h1

/-- Witness of C17 on the stack `[1, 1, 2]` at index 0. -/
theorem C17_eliminated_total_witness :
    ∃ j, scanRun [1, 1, 2] 0 3 (0 + 1) = .ok j ∧ 0 + 1 ≤ j ∧ j ≤ 3 :=
  (C17_eliminated_total (Exception.mk none "" [1, 1, 2])).2 0 (by decide)

/-- Witness of C18 on the single-frame stack `[7]`. -/
theorem C18_eliminated_empty_witness :
    (Exception.mk none "" [7]).EliminatedStackTrace = .ok [] :=
  (C18_eliminated_empty_iff (Exception.mk none "" [7])).2 (by decide)

/-- Witness of C19 on four copies of the frame 7, which yield six copies. -/
theorem C19_eliminated_replicate_witness :
    (Exception.mk none "" (List.replicate 4 7)).EliminatedStackTrace
      = .ok (List.replicate (4 * (4 - 1) / 2) 7) :=
  C19_eliminated_replicate none "" 7 4 (by decide)

end ExceptionPkg
